import Mathlib

/-!
Verification of the `py` wrapper library (src/pyobj.h), a C++ header that
manipulates values of an embedded CPython runtime through reference-counted
handles (`PyObj`) and typed views (`Str`, `List`, `Tuple`, `Set`, `Dict`,
`Function`), plus a template formatter (`fstring`) and a pretty printer
(`detail::pretty_print`).

The embedding models the dynamic runtime values as the inductive `PyVal`
(floats are omitted: no verified property mentions them, and their textual
formatting is a C++ stream detail).  A `PyObject*` held by a wrapper is
modelled as `Handle := Option PyVal`, with `none` for a null pointer.
Runtime equality (`PyObject_RichCompareBool(.., Py_EQ)`) is modelled as
structural equality `pyBeq` on `PyVal`; dictionaries are modelled as
insertion-ordered association lists, which is exactly the observable
behaviour of `PyDict` (unique keys, insertion order preserved).
-/

namespace PyObjLib

/-- Model of the dynamic values of the embedded runtime that the wrapper
manipulates: `None`, booleans, integers, text, lists, tuples, dicts
(insertion-ordered key/value lists with unique keys) and sets. -/
inductive PyVal where
  | vnone
  | vbool (b : Bool)
  | vint (n : Int)
  | vstr (s : String)
  | vlist (xs : List PyVal)
  | vtuple (xs : List PyVal)
  | vdict (entries : List (PyVal × PyVal))
  | vset (xs : List PyVal)

mutual

/-- Model of runtime equality `PyObject_RichCompareBool(a, b, Py_EQ) == 1`:
structural equality of the modelled values. -/
def pyBeq : PyVal → PyVal → Bool
  | .vnone, .vnone => true
  | .vbool a, .vbool b => a == b
  | .vint a, .vint b => a == b
  | .vstr a, .vstr b => a == b
  | .vlist a, .vlist b => pyBeqList a b
  | .vtuple a, .vtuple b => pyBeqList a b
  | .vdict a, .vdict b => pyBeqPairs a b
  | .vset a, .vset b => pyBeqList a b
  | _, _ => false

/-- Elementwise runtime equality of two element lists. -/
def pyBeqList : List PyVal → List PyVal → Bool
  | [], [] => true
  | a :: as1, b :: bs1 => pyBeq a b && pyBeqList as1 bs1
  | _, _ => false

/-- Elementwise runtime equality of two key/value entry lists. -/
def pyBeqPairs : List (PyVal × PyVal) → List (PyVal × PyVal) → Bool
  | [], [] => true
  | (k1, v1) :: r1, (k2, v2) :: r2 => pyBeq k1 k2 && pyBeq v1 v2 && pyBeqPairs r1 r2
  | _, _ => false

end

/-- A `PyObject*` slot held by a wrapper object: `none` models a null
pointer (the empty handle `PyObj()`), `some v` a live reference to `v`. -/
abbrev Handle := Option PyVal

/-- Source `PyObj::is_empty` (src/pyobj.h lines 82-89): true for a null handle;
for text / list / dict / set kinds, true exactly when the length is zero;
`return false` for every other kind — note the source never checks
`PyTuple_Check`, so tuples always fall through to `false`. -/
def is_empty : Handle → Bool
  | none => true
  | some (.vstr s) => s.length == 0
  | some (.vlist xs) => xs.length == 0
  | some (.vdict es) => es.length == 0
  | some (.vset xs) => xs.length == 0
  | some _ => false

/-- Source `PyObj::is_dict` (line 91): runtime type check, false on null. -/
def is_dict : Handle → Bool
  | some (.vdict _) => true
  | _ => false

/-- Source `PyObj::is_list` (line 92). -/
def is_list : Handle → Bool
  | some (.vlist _) => true
  | _ => false

/-- Source `PyObj::is_tuple` (line 93). -/
def is_tuple : Handle → Bool
  | some (.vtuple _) => true
  | _ => false

/-- Source `PyObj::is_str` (line 94). -/
def is_str : Handle → Bool
  | some (.vstr _) => true
  | _ => false

/-- Source `PyObj::is_set` (line 95). -/
def is_set : Handle → Bool
  | some (.vset _) => true
  | _ => false

/-- Source `PyObj::is_sequence` (line 96): `is_list() || is_tuple() || is_str()`. -/
def is_sequence (h : Handle) : Bool :=
  is_list h || is_tuple h || is_str h

/-- Source `PyDict_GetItem` on the association-list model: value of the first
(and, on a real dict, only) entry whose key is runtime-equal to `key`;
`none` models the NULL result of a miss. -/
def dictGet (es : List (PyVal × PyVal)) (key : PyVal) : Handle :=
  (es.find? (fun p => pyBeq p.1 key)).map (fun p => p.2)

/-- Source `PyObj::get_item(long index)` (src/pyobj.h lines 116-161).
List/tuple kinds: negative index wraparound (`index += size`), then the
bounds check `index < 0 || index >= size` returns an empty handle, else the
element.  Text kind: same wraparound and bounds check on the code points,
returning a fresh one-character text.  Null handle: empty handle.  The
generic trailing case calls `PyObject_GetItem` with an integer key: on a
dict that is an integer-key lookup (miss ⇒ error cleared ⇒ empty handle);
on non-subscriptable kinds it raises, the error is cleared, and an empty
handle is returned. -/
def get_item : Handle → Int → Handle
  | none, _ => none
  | some (.vlist xs), index =>
      let size : Int := xs.length
      let i := if index < 0 then index + size else index
      if i < 0 ∨ size ≤ i then none else xs[i.toNat]?
  | some (.vtuple xs), index =>
      let size : Int := xs.length
      let i := if index < 0 then index + size else index
      if i < 0 ∨ size ≤ i then none else xs[i.toNat]?
  | some (.vstr s), index =>
      let length : Int := s.data.length
      let i := if index < 0 then index + length else index
      if i < 0 ∨ length ≤ i then none
      else (s.data[i.toNat]?).map (fun c => PyVal.vstr (String.mk [c]))
  | some (.vdict es), index => dictGet es (.vint index)
  | some _, _ => none

/-- Length of a sequence-kind value (list/tuple element count, text code
point count); used only to state properties of `get_item`. -/
def seqLen : PyVal → Nat
  | .vlist xs => xs.length
  | .vtuple xs => xs.length
  | .vstr s => s.data.length
  | _ => 0

/-- The elements a sequence-kind value yields under indexing: the list or
tuple elements themselves, or the one-character texts of a text value;
used only to state properties of `get_item`. -/
def seqElems : PyVal → List PyVal
  | .vlist xs => xs
  | .vtuple xs => xs
  | .vstr s => s.data.map (fun c => PyVal.vstr (String.mk [c]))
  | _ => []

/-- Source `Str::Str(const PyObj& o) : PyObj(o.get_obj())` (src/pyobj.h line 284)
and `Str::Str(PyObject* o)` (line 283): the constructor stores the wrapped
pointer unchanged — it performs no kind check and no normalization. -/
def strView (o : Handle) : Handle := o

/-- Source `Str::Str()` (line 280): the default constructor wraps a fresh empty
text (`PyObj("")`). -/
def strViewDefault : Handle := some (.vstr "")

/-- Source `Function::Function(const PyObj& o)` (line 1138) and
`Function::Function(PyObject* o)` (line 1137): the constructor stores the
wrapped pointer unchanged — no callability check. -/
def functionView (o : Handle) : Handle := o

/-- Source `Function::Function()` (line 1136): the default constructor is
`PyObj()`, the null handle. -/
def functionViewDefault : Handle := none

/-- Source `List::pop(int index = -1)` (src/pyobj.h lines 585-597): negative
wraparound then bounds check; out of range returns an empty handle with
the list untouched; in range returns the element and deletes it
(`PySequence_DelItem`).  Result: (popped handle, list contents after). -/
def listPop (xs : List PyVal) (index : Int) : Handle × List PyVal :=
  let size : Int := xs.length
  let i := if index < 0 then index + size else index
  if i < 0 ∨ size ≤ i then (none, xs)
  else (xs[i.toNat]?, xs.eraseIdx i.toNat)

/-- Source `Tuple::operator==` (src/pyobj.h lines 822-825): false when either
wrapped pointer is null, else runtime equality of the wrapped values. -/
def tupleEq (a b : Handle) : Bool :=
  match a, b with
  | none, _ => false
  | _, none => false
  | some va, some vb => pyBeq va vb

/-- Source `Tuple::operator!=` (src/pyobj.h lines 827-830): true when either
wrapped pointer is null, else runtime inequality of the wrapped values. -/
def tupleNe (a b : Handle) : Bool :=
  match a, b with
  | none, _ => true
  | _, none => true
  | some va, some vb => !(pyBeq va vb)

/-- Source `Dict::add` = `PyDict_SetItem` (src/pyobj.h lines 1025-1027) on the
association-list model: replace the value of the existing runtime-equal
key (keeping the stored key object), else append the new entry at the end
(insertion order). -/
def dictAdd : List (PyVal × PyVal) → PyVal → PyVal → List (PyVal × PyVal)
  | [], k, v => [(k, v)]
  | p :: rest, k, v =>
      if pyBeq p.1 k then (p.1, v) :: rest else p :: dictAdd rest k v

/-- Source `Dict::contains` = `PyDict_Contains(..) == 1` (lines 1036-1038). -/
def dictContains (es : List (PyVal × PyVal)) (key : PyVal) : Bool :=
  es.any (fun p => pyBeq p.1 key)

/-- Source `PyDict_DelItem` on the association-list model: remove the entry of
the first (on a real dict, only) runtime-equal key. -/
def dictDel : List (PyVal × PyVal) → PyVal → List (PyVal × PyVal)
  | [], _ => []
  | p :: rest, k => if pyBeq p.1 k then rest else p :: dictDel rest k

/-- Source `Dict::pop` (src/pyobj.h lines 1077-1085): `PyDict_GetItem` first — a
NULL result (missing key) returns an empty handle with the dict untouched;
otherwise the value is kept and `PyDict_DelItem` removes the entry. -/
def dictPop (es : List (PyVal × PyVal)) (key : PyVal) : Handle × List (PyVal × PyVal) :=
  match dictGet es key with
  | none => (none, es)
  | some v => (some v, dictDel es key)

/-- Representation invariant of a real `PyDict`: entry keys are pairwise
distinct. Every dict reachable through the wrapper API satisfies it. -/
def dictNoDupKeys (es : List (PyVal × PyVal)) : Prop :=
  es.Pairwise (fun p q => p.1 ≠ q.1)

/-- A native argument supplied to `Function::operator()` (src/pyobj.h
lines 1170-1192).  The C++ dispatch is on the static type of the argument
(`std::is_same_v<.., Dict>`), so the static type is part of the model:
`dictArg` is an argument whose declared type is `Dict`, `objArg` any other
wrapper handle, and the literal constructors mirror `PyObj`'s conversion
constructors (floats omitted with the value model). -/
inductive NativeArg where
  | objArg (h : Handle)
  | dictArg (es : List (PyVal × PyVal))
  | intArg (n : Int)
  | boolArg (b : Bool)
  | strArg (s : String)

/-- The per-argument conversion `PyObj(arg)` used by `make_args_tuple`
(src/pyobj.h lines 1195-1198): wrapper arguments pass their handle
through (a `Dict` is itself a `PyObj` wrapping its dict value), literals
construct fresh runtime values. -/
def marshal : NativeArg → Handle
  | .objArg h => h
  | .dictArg es => some (.vdict es)
  | .intArg n => some (.vint n)
  | .boolArg b => some (.vbool b)
  | .strArg s => some (.vstr s)

/-- Source `Function::operator()` (src/pyobj.h lines 1170-1192): when the last
supplied argument's static type is `Dict`, it becomes the keyword bundle
and only the preceding arguments are marshaled positionally; otherwise all
arguments are marshaled positionally and the keyword bundle is the empty
dict `Dict()`.  Result: the (positional, keyword) pair handed to
`Function::call`. -/
def functionCallArgs (args : List NativeArg) : List Handle × List (PyVal × PyVal) :=
  match args.getLast? with
  | some (.dictArg es) => (args.dropLast.map marshal, es)
  | _ => (args.map marshal, [])

/-- An argument of the variadic `fstring` (src/pyobj.h lines 1209-1226)
after the `process_arg` fold: a `farg(name, value)` pair contributes a
named binding, any other argument contributes the next positional string
(the C++ stringifies it through `operator<<` while collecting, so the
model receives it as its string form). -/
inductive FArg where
  | posArg (s : String)
  | namedArg (n v : String)

/-- Source `named_args.emplace(first, second)`: `std::unordered_map::emplace`
inserts only when the key is absent, so the first binding of a name
wins. -/
def emplace (m : List (String × String)) (k v : String) : List (String × String) :=
  if m.any (fun p => p.1 == k) then m else m ++ [(k, v)]

/-- The left-to-right `process_arg` fold of `fstring` (lines 1214-1226):
named pairs go to the named-argument map, everything else is appended to
the positional list in supply order. -/
def processArgs (args : List FArg) : List (String × String) × List String :=
  args.foldl
    (fun acc a =>
      match a with
      | .namedArg n v => (emplace acc.1 n v, acc.2)
      | .posArg s => (acc.1, acc.2 ++ [s]))
    ([], [])

/-- Source `format.find('\x7d', i + 1)` followed by `format.substr(i + 1, j - i - 1)`
(src/pyobj.h lines 1242-1248), on the tail after the opening brace: `none`
when no closing brace exists before end of input, else the key (characters
before the first closing brace) and the tail after that closing brace. -/
def fieldSplit : List Char → Option (List Char × List Char)
  | [] => none
  | c :: rest =>
    if c = '\x7d' then some ([], rest)
    else
      match fieldSplit rest with
      | none => none
      | some (key, rest2) => some (c :: key, rest2)

/-- Source `named_args.find(key)` (line 1258): the value bound to `key`, if any. -/
def lookupNamed (named : List (String × String)) (key : String) : Option String :=
  (named.find? (fun p => p.1 == key)).map (fun p => p.2)

/-- The character scan of `fstring` (src/pyobj.h lines 1232-1278), one
left-to-right pass over the template with the still-unconsumed positional
arguments threaded through.  `\x7b\x7b` emits `\x7b`; at a lone `\x7b`
the first closing brace is sought — none means the `\x7b` is emitted and
scanning resumes at the next character; an empty key consumes the next
positional argument (or emits the literal `\x7b\x7d` when exhausted); a
non-empty key is looked up among the named arguments (a miss emits the
placeholder verbatim).  `\x7d\x7d` emits `\x7d`, a lone `\x7d` is copied,
and any other character is copied. -/
def fmtScan (named : List (String × String)) : List Char → List String → String
  | [], _ => ""
  | '\x7b' :: '\x7b' :: rest, pos => "\x7b" ++ fmtScan named rest pos
  | '\x7b' :: rest, pos =>
      match h : fieldSplit rest with
      | none => "\x7b" ++ fmtScan named rest pos
      | some (key, rest2) =>
          if key = [] then
            match pos with
            | p :: pos2 => p ++ fmtScan named rest2 pos2
            | [] => "\x7b\x7d" ++ fmtScan named rest2 []
          else
            match lookupNamed named (String.mk key) with
            | some v => v ++ fmtScan named rest2 pos
            | none => "\x7b" ++ String.mk key ++ "\x7d" ++ fmtScan named rest2 pos
  | '\x7d' :: '\x7d' :: rest, pos => "\x7d" ++ fmtScan named rest pos
  | c :: rest, pos => String.mk [c] ++ fmtScan named rest pos
termination_by cs _ => cs.length
decreasing_by
  all_goals simp
  all_goals first
    | omega
    | (have hlen : ∀ (r k r2 : List Char),
          fieldSplit r = some (k, r2) → r2.length < r.length := by
        intro r
        induction r with
        | nil => intro k r2 hh; simp [fieldSplit] at hh
        | cons c cs ih =>
            intro k r2 hh
            by_cases hc : c = '\x7d'
            · simp [fieldSplit, hc] at hh
              simp [← hh.2]
            · simp [fieldSplit, hc] at hh
              cases hfs : fieldSplit cs with
              | none => rw [hfs] at hh; simp at hh
              | some p =>
                  rw [hfs] at hh
                  cases p with
                  | mk k2 r2x =>
                      simp at hh
                      have := ih _ _ hfs
                      have h2 : r2x = r2 := hh.2
                      subst h2
                      simp
                      omega
       have := hlen _ _ _ h
       omega)

/-- Source `fstring(format, args...)` (src/pyobj.h lines 1209-1281): collect the
arguments, then scan the template. -/
def fstring (format : String) (args : List FArg) : String :=
  let na := processArgs args
  fmtScan na.1 format.data na.2

/-- An indent of `n` space characters, as emitted by the
`for (int j = 0; j < n; ++j) os << ' '` loops of `detail::pretty_print`. -/
def spaces (n : Nat) : String := String.mk (List.replicate n ' ')

mutual

/-- Source `detail::pretty_print` (src/pyobj.h lines 1285-1441) on a non-null
value, producing the stream contents.  Scalars render directly (booleans
as `True`/`False`, text double-quoted, `None` through the repr fallback);
empty list/tuple/dict render inline as their delimiter pair; non-empty
list/tuple/dict render the opening delimiter, a newline, the recursive
entries, and the closing delimiter at the parent's indent.  The set branch
(lines 1404-1429) has no empty check: it always renders `\x7b`, newline,
the entries, newline, indent, `\x7d`. -/
def prettyPrint : PyVal → Nat → String
  | .vnone, _ => "None"
  | .vbool b, _ => if b then "True" else "False"
  | .vint n, _ => toString n
  | .vstr s, _ => "\"" ++ s ++ "\""
  | .vlist xs, ind =>
      if xs.isEmpty then "[]"
      else "[\n" ++ ppItems xs ind ++ spaces ind ++ "]"
  | .vtuple xs, ind =>
      if xs.isEmpty then "()"
      else "(\n" ++ ppItems xs ind ++ spaces ind ++ ")"
  | .vdict es, ind =>
      if es.isEmpty then "\x7b\x7d"
      else "\x7b\n" ++ ppDictItems es ind ++ "\n" ++ spaces ind ++ "\x7d"
  | .vset xs, ind =>
      "\x7b\n" ++ ppSetItems xs ind ++ "\n" ++ spaces ind ++ "\x7d"

/-- The list/tuple entry loop (lines 1324-1334, 1350-1360): each entry is
indented four deeper, non-last entries get a trailing comma, every entry a
trailing newline. -/
def ppItems : List PyVal → Nat → String
  | [], _ => ""
  | [x], ind => spaces (ind + 4) ++ prettyPrint x (ind + 4) ++ "\n"
  | x :: rest, ind =>
      spaces (ind + 4) ++ prettyPrint x (ind + 4) ++ ",\n" ++ ppItems rest ind

/-- The dict entry loop (lines 1380-1395): `,\n` before every entry but
the first, each entry `key: value` indented four deeper. -/
def ppDictItems : List (PyVal × PyVal) → Nat → String
  | [], _ => ""
  | [(k, v)], ind =>
      spaces (ind + 4) ++ prettyPrint k (ind + 4) ++ ": " ++ prettyPrint v (ind + 4)
  | (k, v) :: rest, ind =>
      spaces (ind + 4) ++ prettyPrint k (ind + 4) ++ ": " ++ prettyPrint v (ind + 4)
        ++ ",\n" ++ ppDictItems rest ind

/-- The set entry loop (lines 1415-1422): `,\n` before every entry but the
first, each entry indented four deeper (entries in iteration order). -/
def ppSetItems : List PyVal → Nat → String
  | [], _ => ""
  | [x], ind => spaces (ind + 4) ++ prettyPrint x (ind + 4)
  | x :: rest, ind =>
      spaces (ind + 4) ++ prettyPrint x (ind + 4) ++ ",\n" ++ ppSetItems rest ind

end

/-- Source `detail::pretty_print` on a possibly null handle: the null check at
line 1286 prints `None`. -/
def prettyPrintH : Handle → Nat → String
  | none, _ => "None"
  | some v, ind => prettyPrint v ind

/-- Joined entries, used only to state the rendering of non-empty
containers: the pieces separated by `sep`. -/
def joinSep (sep : String) : List String → String
  | [] => ""
  | [s] => s
  | s :: rest => s ++ sep ++ joinSep sep rest

/-- First position at which `sub` occurs in the haystack, scanning left to
right; models the occurrence search of Python `str.index`. -/
def strFindPos (sub : List Char) : List Char → Option Nat
  | [] => if sub.isEmpty then some 0 else none
  | c :: t =>
      if sub.isPrefixOf (c :: t) then some 0
      else (strFindPos sub t).map (fun n => n + 1)

/-- The runtime call `PyObject_CallMethod(obj, "index", "O", sub)` made by
`Str::index` (line 400), threading the runtime's pending-error flag:
Python `str.index` returns the position of the substring, or raises
`ValueError` — a NULL result with the error left pending — when it does
not occur. -/
def pyStrIndexCall (s sub : String) (pending : Bool) : Option Int × Bool :=
  match strFindPos sub.data s.data with
  | some i => (some (i : Int), pending)
  | none => (none, true)

/-- Source `Str::index` (src/pyobj.h lines 399-404): make the call, then
`long value = result ? PyLong_AsLong(result) : -1` — the function returns
the sentinel −1 on a NULL result but never calls `PyErr_Clear`, so the
pending-error flag of the runtime is returned untouched. -/
def strIndexMethod (s sub : String) (pending : Bool) : Int × Bool :=
  let r := pyStrIndexCall s sub pending
  (match r.1 with
   | some i => i
   | none => -1,
   r.2)

/-- First element of `xs` runtime-equal to `v`, as `PySequence_Index`
searches for it. -/
def listIdxOf : List PyVal → PyVal → Option Nat
  | [], _ => none
  | x :: t, v => if pyBeq x v then some 0 else (listIdxOf t v).map (fun n => n + 1)

/-- The runtime call `PySequence_Index(obj, value)` made by `Tuple::index`
(line 773): the position of the first equal element, or −1 with an error
left pending when there is none. -/
def pySequenceIndexCall (xs : List PyVal) (v : PyVal) (pending : Bool) : Int × Bool :=
  match listIdxOf xs v with
  | some i => ((i : Int), pending)
  | none => (-1, true)

/-- Source `Tuple::index` (src/pyobj.h lines 770-780): make the call; on
`idx == -1 && PyErr_Occurred()` the code calls `PyErr_Clear()` and returns
−1, so here — unlike `Str::index` — the pending error is wiped before
returning. -/
def tupleIndexMethod (xs : List PyVal) (v : PyVal) (pending : Bool) : Int × Bool :=
  let r := pySequenceIndexCall xs v pending
  if r.1 = -1 ∧ r.2 = true then (-1, false) else r

/-- An index with the wraparound `if (index < 0) index += size` applied;
used only to state properties of the indexing operations. -/
def wrapIndex (i : Int) (n : Nat) : Int := if i < 0 then i + n else i

mutual

theorem pyBeq_iff : ∀ a b, pyBeq a b = true ↔ a = b
  | .vnone, b => by cases b <;> simp [pyBeq]
  | .vbool x, b => by cases b <;> simp [pyBeq]
  | .vint x, b => by cases b <;> simp [pyBeq]
  | .vstr x, b => by cases b <;> simp [pyBeq]
  | .vlist xs, b => by cases b <;> simp [pyBeq, pyBeqList_iff xs]
  | .vtuple xs, b => by cases b <;> simp [pyBeq, pyBeqList_iff xs]
  | .vdict es, b => by cases b <;> simp [pyBeq, pyBeqPairs_iff es]
  | .vset xs, b => by cases b <;> simp [pyBeq, pyBeqList_iff xs]

theorem pyBeqList_iff : ∀ as1 bs1, pyBeqList as1 bs1 = true ↔ as1 = bs1
  | [], bs1 => by cases bs1 <;> simp [pyBeqList]
  | a :: r, [] => by simp [pyBeqList]
  | a :: r, b :: s => by
      simp [pyBeqList, pyBeq_iff a b, pyBeqList_iff r s]

theorem pyBeqPairs_iff : ∀ es fs, pyBeqPairs es fs = true ↔ es = fs
  | [], fs => by cases fs <;> simp [pyBeqPairs]
  | p :: r, [] => by cases p; simp [pyBeqPairs]
  | (k1, v1) :: r, (k2, v2) :: s => by
      simp [pyBeqPairs, pyBeq_iff k1 k2, pyBeq_iff v1 v2, pyBeqPairs_iff r s]

end

theorem pyBeq_self (a : PyVal) : pyBeq a a = true := (pyBeq_iff a a).mpr rfl

theorem pyBeq_eq_false_iff (a b : PyVal) : pyBeq a b = false ↔ a ≠ b := by
  constructor
  · intro hf heq
    subst heq
    rw [pyBeq_self] at hf
    cases hf
  · intro hne
    cases hb : pyBeq a b
    · rfl
    · exact absurd ((pyBeq_iff a b).mp hb) hne

/-- C1 counterexample: the claim says a `Str` view constructed over a
list-kind handle yields the empty text, and a `Function` view over a
non-callable handle yields the default callable.  In the source neither
constructor checks the kind: `Str(const PyObj&)` over the list `[1]`
wraps that very list (not the empty text of `Str()`), and
`Function(const PyObj&)` over the integer 7 wraps the integer (not the
null handle of `Function()`). -/
theorem C1_counterexample :
    strView (some (PyVal.vlist [PyVal.vint 1])) = some (PyVal.vlist [PyVal.vint 1])
    ∧ strView (some (PyVal.vlist [PyVal.vint 1])) ≠ strViewDefault
    ∧ functionView (some (PyVal.vint 7)) = some (PyVal.vint 7)
    ∧ functionView (some (PyVal.vint 7)) ≠ functionViewDefault := by
  refine ⟨rfl, ?_, rfl, ?_⟩ <;> simp [strView, strViewDefault, functionView, functionViewDefault]

/-- C1 (amended): the `Str` and `Function` view constructors perform no
kind check at all — constructing a view from any handle wraps the same
underlying value unchanged, neither normalizing a mismatch to the view's
default nor failing; only the default constructors produce the defaults
(`Str()` the empty text, `Function()` the null handle). -/
theorem C1_theorem :
    (∀ o : Handle, strView o = o) ∧ (∀ o : Handle, functionView o = o)
    ∧ strViewDefault = some (PyVal.vstr "") ∧ functionViewDefault = none :=
  ⟨fun _ => rfl, fun _ => rfl, rfl, rfl⟩

/-- C5 counterexample: the claim says `is_empty()` on a handle wrapping an
empty tuple returns true; the source's `is_empty` checks the text, list,
dict and set kinds but never `PyTuple_Check`, so an empty tuple falls
through to `return false`. -/
theorem C5_counterexample : is_empty (some (PyVal.vtuple [])) = false := rfl

/-- C5 (amended): `is_empty` returns true exactly when the handle is null,
or when the wrapped value's kind is text, list, mapping or set with zero
length; it returns false for every other value — including tuples (even
empty ones), numeric zero and boolean false. -/
theorem C5_theorem (h : Handle) :
    (is_empty h = true ↔
      h = none
      ∨ (∃ s, h = some (PyVal.vstr s) ∧ s.length = 0)
      ∨ (∃ xs, h = some (PyVal.vlist xs) ∧ xs.length = 0)
      ∨ (∃ es, h = some (PyVal.vdict es) ∧ es.length = 0)
      ∨ (∃ xs, h = some (PyVal.vset xs) ∧ xs.length = 0))
    ∧ is_empty (some (PyVal.vtuple [])) = false
    ∧ is_empty (some (PyVal.vint 0)) = false
    ∧ is_empty (some (PyVal.vbool false)) = false := by
  refine ⟨?_, rfl, rfl, rfl⟩
  cases h with
  | none => simp [is_empty]
  | some v => cases v <;> simp [is_empty]

/-- C9: `List::pop(i)` with an index that is still out of range after the
negative wraparound — in particular any `pop()` on an empty list — returns
an empty handle and leaves the list contents unchanged. -/
theorem C9_theorem (xs : List PyVal) (index : Int)
    (h : wrapIndex index xs.length < 0 ∨ (xs.length : Int) ≤ wrapIndex index xs.length) :
    listPop xs index = (none, xs) := by
  unfold wrapIndex at h
  simp only [listPop]
  rw [if_pos h]

/-- Witness for C9 at concrete inputs: `pop()` (default index −1) on the
empty list, and `pop(1)` on a one-element list. -/
theorem C9_witness :
    listPop [] (-1) = (none, [])
    ∧ listPop [PyVal.vint 5] 1 = (none, [PyVal.vint 5]) :=
  ⟨C9_theorem [] (-1) (by simp [wrapIndex]),
   C9_theorem [PyVal.vint 5] 1 (by simp [wrapIndex])⟩

/-- C10: `Tuple::operator==` returns false whenever either operand wraps a
null handle, and `operator!=` returns true there; in particular a Tuple
holding a null handle compares unequal to itself, so the equality is not
reflexive on null handles. -/
theorem C10_theorem (a b : Handle) (h : a = none ∨ b = none) :
    tupleEq a b = false ∧ tupleNe a b = true
    ∧ tupleEq none none = false ∧ tupleNe none none = true := by
  refine ⟨?_, ?_, rfl, rfl⟩
  · rcases h with h | h
    · subst h; cases b <;> rfl
    · subst h; cases a <;> rfl
  · rcases h with h | h
    · subst h; cases b <;> rfl
    · subst h; cases a <;> rfl

/-- Witness for C10 at the concrete input: both operands the null handle. -/
theorem C10_witness : tupleEq none none = false ∧ tupleNe none none = true :=
  ⟨(C10_theorem none none (Or.inl rfl)).1, (C10_theorem none none (Or.inl rfl)).2.1⟩

/-- C6: through `Function::operator()`, the last supplied argument is
consumed as the keyword bundle if and only if its (static) type is the
`Dict` view: in that case only the preceding arguments are marshaled
positionally; in every other case all arguments are marshaled positionally
and the keyword bundle passed to `Function::call` is the empty dict. -/
theorem C6_theorem (args : List NativeArg) :
    (∀ es, args.getLast? = some (NativeArg.dictArg es) →
        functionCallArgs args = (args.dropLast.map marshal, es))
    ∧ ((∀ es, args.getLast? ≠ some (NativeArg.dictArg es)) →
        functionCallArgs args = (args.map marshal, [])) := by
  constructor
  · intro es hlast
    unfold functionCallArgs
    rw [hlast]
  · intro hno
    unfold functionCallArgs
    cases hl : args.getLast? with
    | none => rfl
    | some a =>
        cases a with
        | dictArg es => exact absurd hl (hno es)
        | objArg h => rfl
        | intArg n => rfl
        | boolArg b => rfl
        | strArg s => rfl

/-- Witness for C6 at concrete inputs: a call whose last argument is a
`Dict`, and a call with no trailing `Dict`. -/
theorem C6_witness :
    functionCallArgs [NativeArg.intArg 1, NativeArg.dictArg [(PyVal.vstr "k", PyVal.vint 2)]]
      = ([some (PyVal.vint 1)], [(PyVal.vstr "k", PyVal.vint 2)])
    ∧ functionCallArgs [NativeArg.intArg 1] = ([some (PyVal.vint 1)], []) := by
  constructor
  · have h := (C6_theorem [NativeArg.intArg 1,
      NativeArg.dictArg [(PyVal.vstr "k", PyVal.vint 2)]]).1
      [(PyVal.vstr "k", PyVal.vint 2)] rfl
    rw [h]
    rfl
  · have h := (C6_theorem [NativeArg.intArg 1]).2 (fun es hc => by simp at hc)
    rw [h]
    rfl

/-- C2: on a handle of list, tuple or text kind, `get_item(i)` first
applies the negative-index wraparound `index += length`, returns the
element at the resulting index when it lies in `[0, N)`, and otherwise
returns the empty handle — no error; in particular −1 resolves to the last
element and both `N` and `−N−1` yield the empty handle. -/
theorem C2_theorem (v : PyVal) (hseq : is_sequence (some v) = true) (i : Int) :
    (get_item (some v) i =
      if 0 ≤ wrapIndex i (seqLen v) ∧ wrapIndex i (seqLen v) < (seqLen v : Int)
      then (seqElems v)[(wrapIndex i (seqLen v)).toNat]?
      else none)
    ∧ (0 < seqLen v → get_item (some v) (-1) = (seqElems v)[seqLen v - 1]?)
    ∧ get_item (some v) ((seqLen v : Int)) = none
    ∧ get_item (some v) (-(seqLen v : Int) - 1) = none := by
  have hchar : ∀ j : Int, get_item (some v) j =
      if 0 ≤ wrapIndex j (seqLen v) ∧ wrapIndex j (seqLen v) < (seqLen v : Int)
      then (seqElems v)[(wrapIndex j (seqLen v)).toNat]?
      else none := by
    intro j
    cases v with
    | vlist xs =>
        simp only [get_item, seqLen, seqElems, wrapIndex]
        by_cases hc : 0 ≤ (if j < 0 then j + (xs.length : Int) else j)
            ∧ (if j < 0 then j + (xs.length : Int) else j) < (xs.length : Int)
        · rw [if_pos hc, if_neg (by omega)]
        · rw [if_neg hc, if_pos (by omega)]
    | vtuple xs =>
        simp only [get_item, seqLen, seqElems, wrapIndex]
        by_cases hc : 0 ≤ (if j < 0 then j + (xs.length : Int) else j)
            ∧ (if j < 0 then j + (xs.length : Int) else j) < (xs.length : Int)
        · rw [if_pos hc, if_neg (by omega)]
        · rw [if_neg hc, if_pos (by omega)]
    | vstr s =>
        simp only [get_item, seqLen, seqElems, wrapIndex]
        by_cases hc : 0 ≤ (if j < 0 then j + (s.data.length : Int) else j)
            ∧ (if j < 0 then j + (s.data.length : Int) else j) < (s.data.length : Int)
        · rw [if_pos hc, if_neg (by omega)]
          simp [List.getElem?_map]
        · rw [if_neg hc, if_pos (by omega)]
    | vnone => simp [is_sequence, is_list, is_tuple, is_str] at hseq
    | vbool b => simp [is_sequence, is_list, is_tuple, is_str] at hseq
    | vint n => simp [is_sequence, is_list, is_tuple, is_str] at hseq
    | vdict es => simp [is_sequence, is_list, is_tuple, is_str] at hseq
    | vset xs => simp [is_sequence, is_list, is_tuple, is_str] at hseq
  refine ⟨hchar i, ?_, ?_, ?_⟩
  · intro hlen
    rw [hchar (-1), if_pos (by unfold wrapIndex; split <;> omega)]
    have ht : (wrapIndex (-1) (seqLen v)).toNat = seqLen v - 1 := by
      unfold wrapIndex; split <;> omega
    rw [ht]
  · rw [hchar ((seqLen v : Int)), if_neg (by unfold wrapIndex; split <;> omega)]
  · rw [hchar (-(seqLen v : Int) - 1), if_neg (by unfold wrapIndex; split <;> omega)]

/-- Witness for C2 on the concrete list `[7, 8]`: index −1 resolves to the
last element, index `N = 2` and index `−N−1 = −3` yield the empty
handle. -/
theorem C2_witness :
    get_item (some (PyVal.vlist [PyVal.vint 7, PyVal.vint 8])) (-1) = some (PyVal.vint 8)
    ∧ get_item (some (PyVal.vlist [PyVal.vint 7, PyVal.vint 8])) 2 = none
    ∧ get_item (some (PyVal.vlist [PyVal.vint 7, PyVal.vint 8])) (-3) = none := by
  refine ⟨?_, ?_, ?_⟩
  · have h1 := (C2_theorem (PyVal.vlist [PyVal.vint 7, PyVal.vint 8]) rfl (-1)).2.1
      (by decide)
    rw [h1]
    rfl
  · have h2 := (C2_theorem (PyVal.vlist [PyVal.vint 7, PyVal.vint 8]) rfl 2).2.2.1
    exact h2
  · have h3 := (C2_theorem (PyVal.vlist [PyVal.vint 7, PyVal.vint 8]) rfl (-3)).2.2.2
    exact h3

theorem dictGet_eq_none_iff (es : List (PyVal × PyVal)) (k : PyVal) :
    dictGet es k = none ↔ dictContains es k = false := by
  simp [dictGet, dictContains, List.find?_eq_none, List.any_eq_false]

theorem dictContains_dictDel (es : List (PyVal × PyVal)) (k : PyVal)
    (hnd : dictNoDupKeys es) : dictContains (dictDel es k) k = false := by
  induction es with
  | nil => rfl
  | cons p rest ih =>
      unfold dictNoDupKeys at hnd
      rw [List.pairwise_cons] at hnd
      cases hb : pyBeq p.1 k with
      | true =>
          have hd : dictDel (p :: rest) k = rest := by simp [dictDel, hb]
          rw [hd]
          simp only [dictContains, List.any_eq_false]
          intro q hq
          intro hqk
          exact (hnd.1 q hq) (((pyBeq_iff _ _).mp hb).trans ((pyBeq_iff _ _).mp hqk).symm)
      | false =>
          have hd : dictDel (p :: rest) k = p :: dictDel rest k := by simp [dictDel, hb]
          rw [hd]
          have hc : dictContains (p :: dictDel rest k) k
              = (pyBeq p.1 k || dictContains (dictDel rest k) k) := by
            simp [dictContains]
          rw [hc, hb, ih hnd.2]
          rfl

/-- C7: `Dict` round trips — `add(k, v)` then `get(k)` yields exactly `v`;
after `pop(k)` (given the dict invariant of pairwise-distinct keys)
`contains(k)` is false; and `pop(k)` of an absent key returns the empty
handle and leaves the entries unchanged. -/
theorem C7_theorem (es : List (PyVal × PyVal)) (k v : PyVal) :
    dictGet (dictAdd es k v) k = some v
    ∧ (dictNoDupKeys es → dictContains (dictPop es k).2 k = false)
    ∧ (dictContains es k = false → dictPop es k = (none, es)) := by
  refine ⟨?_, ?_, ?_⟩
  · induction es with
    | nil =>
        simp only [dictAdd]
        unfold dictGet
        rw [List.find?_cons_of_pos _ (by simp [pyBeq_self])]
        rfl
    | cons p rest ih =>
        cases hb : pyBeq p.1 k with
        | true =>
            have hd : dictAdd (p :: rest) k v = (p.1, v) :: rest := by simp [dictAdd, hb]
            rw [hd]
            unfold dictGet
            rw [List.find?_cons_of_pos _ (by simp [hb])]
            rfl
        | false =>
            have hd : dictAdd (p :: rest) k v = p :: dictAdd rest k v := by simp [dictAdd, hb]
            rw [hd]
            unfold dictGet
            rw [List.find?_cons_of_neg _ (by simp [hb])]
            exact ih
  · intro hnd
    have hdel := dictContains_dictDel es k hnd
    unfold dictPop
    cases hg : dictGet es k with
    | none => exact (dictGet_eq_none_iff es k).mp hg
    | some w => exact hdel
  · intro hcon
    unfold dictPop
    rw [(dictGet_eq_none_iff es k).mpr hcon]

/-- Witness for C7 at concrete inputs: adding then reading the binding
`1 ↦ "a"` in the empty dict, and popping a missing key from the empty
dict. -/
theorem C7_witness :
    dictGet (dictAdd [] (PyVal.vint 1) (PyVal.vstr "a")) (PyVal.vint 1) = some (PyVal.vstr "a")
    ∧ dictContains (dictPop [] (PyVal.vint 1)).2 (PyVal.vint 1) = false
    ∧ dictPop [] (PyVal.vint 1) = (none, []) := by
  have h := C7_theorem [] (PyVal.vint 1) (PyVal.vstr "a")
  exact ⟨h.1, h.2.1 (by simp [dictNoDupKeys]), h.2.2 rfl⟩

/-- C8 counterexample: the claim says every runtime-reported error is
cleared before the view operation returns; but `Str("ab").index("z")` —
whose underlying `str.index` call raises `ValueError` — returns the −1
sentinel with the runtime's pending-error flag still set, because
`Str::index` never calls `PyErr_Clear`. -/
theorem C8_counterexample : (strIndexMethod "ab" "z" false).2 = true := rfl

/-- C8 (amended): a failing search still yields the −1 sentinel and no
failure signal propagates, but the pending-error discipline is not
uniform: `Str::index` on a missing substring leaves the runtime error
pending, while `Tuple::index` on a missing element clears it before
returning. -/
theorem C8_theorem (s sub : String) (xs : List PyVal) (v : PyVal)
    (hmiss : strFindPos sub.data s.data = none)
    (hmiss2 : listIdxOf xs v = none) :
    strIndexMethod s sub false = (-1, true)
    ∧ tupleIndexMethod xs v false = (-1, false) := by
  constructor
  · simp [strIndexMethod, pyStrIndexCall, hmiss]
  · simp [tupleIndexMethod, pySequenceIndexCall, hmiss2]

/-- Witness for C8 at concrete inputs: searching `"z"` in `"ab"` and the
integer 0 in the empty tuple. -/
theorem C8_witness :
    strIndexMethod "ab" "z" false = (-1, true)
    ∧ tupleIndexMethod [] (PyVal.vint 0) false = (-1, false) :=
  C8_theorem "ab" "z" [] (PyVal.vint 0) rfl rfl

theorem fieldSplit_append (key rest : List Char) (hk : '\x7d' ∉ key) :
    fieldSplit (key ++ '\x7d' :: rest) = some (key, rest) := by
  induction key with
  | nil => simp [fieldSplit]
  | cons c t ih =>
      have hc : c ≠ '\x7d' := by intro hh; exact hk (by simp [hh])
      have ht : '\x7d' ∉ t := fun hm => hk (List.mem_cons_of_mem _ hm)
      simp [fieldSplit, hc, ih ht]

theorem fieldSplit_none (rest : List Char) (hnm : '\x7d' ∉ rest) :
    fieldSplit rest = none := by
  induction rest with
  | nil => rfl
  | cons c t ih =>
      have hc : c ≠ '\x7d' := by intro hh; exact hnm (by simp [hh])
      have ht : '\x7d' ∉ t := fun hm => hnm (List.mem_cons_of_mem _ hm)
      simp [fieldSplit, hc, ih ht]

/-- C3: the `fstring` scan, rule by rule — an opening-brace pair emits one
opening brace; a closing-brace pair emits one closing brace; a lone
closing brace is copied verbatim; an empty placeholder consumes the next
unconsumed positional argument, or is emitted as the literal two-character
placeholder when none remain; a named placeholder emits the bound value,
or itself verbatim when the name is unbound; an opening brace with no
closing brace anywhere after it is emitted verbatim and scanning resumes;
every other character is copied unchanged — together with the four
concrete examples of the specification. -/
theorem C3_theorem (named : List (String × String)) (pos : List String) :
    (∀ rest, fmtScan named ('\x7b' :: '\x7b' :: rest) pos = "\x7b" ++ fmtScan named rest pos)
    ∧ (∀ rest, fmtScan named ('\x7d' :: '\x7d' :: rest) pos = "\x7d" ++ fmtScan named rest pos)
    ∧ (∀ c rest, c ≠ '\x7d' →
        fmtScan named ('\x7d' :: c :: rest) pos = "\x7d" ++ fmtScan named (c :: rest) pos)
    ∧ fmtScan named ['\x7d'] pos = "\x7d"
    ∧ (∀ rest p pos2, pos = p :: pos2 →
        fmtScan named ('\x7b' :: '\x7d' :: rest) pos = p ++ fmtScan named rest pos2)
    ∧ (pos = [] → ∀ rest,
        fmtScan named ('\x7b' :: '\x7d' :: rest) [] = "\x7b\x7d" ++ fmtScan named rest [])
    ∧ (∀ key rest, key ≠ [] → key.head? ≠ some '\x7b' → '\x7d' ∉ key →
        fmtScan named ('\x7b' :: (key ++ '\x7d' :: rest)) pos =
          (lookupNamed named (String.mk key)).getD ("\x7b" ++ String.mk key ++ "\x7d")
            ++ fmtScan named rest pos)
    ∧ (∀ rest, rest.head? ≠ some '\x7b' → '\x7d' ∉ rest →
        fmtScan named ('\x7b' :: rest) pos = "\x7b" ++ fmtScan named rest pos)
    ∧ (∀ c rest, c ≠ '\x7b' → c ≠ '\x7d' →
        fmtScan named (c :: rest) pos = String.mk [c] ++ fmtScan named rest pos)
    ∧ fstring "\x7b\x7d and \x7bname\x7d" [FArg.posArg "1", FArg.namedArg "name" "x"]
        = "1 and x"
    ∧ fstring "\x7b\x7bliteral\x7d\x7d" [] = "\x7bliteral\x7d"
    ∧ fstring "\x7bmissing\x7d" [] = "\x7bmissing\x7d"
    ∧ fstring "\x7b\x7d \x7b\x7d" [FArg.posArg "1"] = "1 \x7b\x7d" := by
  refine ⟨?_, ?_, ?_, ?_, ?_, ?_, ?_, ?_, ?_, ?_, ?_, ?_, ?_⟩
  · intro rest
    simp [fmtScan]
  · intro rest
    simp [fmtScan]
  · intro c rest hc
    rw [fmtScan.eq_def]
    simp [hc]
  · rw [fmtScan.eq_def]
    simp [fmtScan]
  · intro rest p pos2 hp
    subst hp
    rw [fmtScan.eq_def]
    simp [fieldSplit]
  · intro hp rest
    rw [fmtScan.eq_def]
    simp [fieldSplit]
  · intro key rest hne hhd hnm
    cases key with
    | nil => exact absurd rfl hne
    | cons c t =>
        have hc : c ≠ '\x7b' := by intro hh; rw [hh] at hhd; simp at hhd
        rw [fmtScan.eq_def]
        simp [hc]
        split
        · rename_i heq
          rw [show c :: (t ++ '\x7d' :: rest) = (c :: t) ++ '\x7d' :: rest from rfl,
            fieldSplit_append (c :: t) rest hnm] at heq
          cases heq
        · rename_i key2 rest2 heq
          rw [show c :: (t ++ '\x7d' :: rest) = (c :: t) ++ '\x7d' :: rest from rfl,
            fieldSplit_append (c :: t) rest hnm] at heq
          injection heq with heq2
          injection heq2 with hk hr
          subst hk
          subst hr
          rw [if_neg (by simp)]
          cases hl : lookupNamed named (String.mk (c :: t)) <;> simp [hl]
  · intro rest hhd hnm
    cases rest with
    | nil =>
        rw [fmtScan.eq_def]
        simp [fieldSplit, fmtScan]
    | cons c t =>
        have hc : c ≠ '\x7b' := by intro hh; rw [hh] at hhd; simp at hhd
        rw [fmtScan.eq_def]
        simp [hc]
        split
        · rfl
        · rename_i key2 rest2 heq
          rw [fieldSplit_none _ hnm] at heq
          cases heq
  · intro c rest h1 h2
    rw [fmtScan.eq_def]
    simp [h1, h2]
  · simp [fstring, processArgs, emplace, fmtScan, fieldSplit, lookupNamed, String.data]
  · simp [fstring, processArgs, emplace, fmtScan, fieldSplit, lookupNamed, String.data]
  · simp [fstring, processArgs, emplace, fmtScan, fieldSplit, lookupNamed, String.data]
  · simp [fstring, processArgs, emplace, fmtScan, fieldSplit, lookupNamed, String.data]

/-- Witness for C3 at concrete inputs, discharging every hypothesis of the
rules: a lone closing brace before `a`; the empty placeholder with and
without a remaining positional argument; the named placeholder `n` over an
empty binding map; an unterminated opening brace before `a`; and the plain
character `a`. -/
theorem C3_witness :
    fmtScan [] ['\x7d', 'a'] [] = "\x7d" ++ fmtScan [] ['a'] []
    ∧ fmtScan [] ['\x7b', '\x7d', 'a'] ["1"] = "1" ++ fmtScan [] ['a'] []
    ∧ fmtScan [] ['\x7b', '\x7d', 'a'] [] = "\x7b\x7d" ++ fmtScan [] ['a'] []
    ∧ fmtScan [] ('\x7b' :: (['n'] ++ '\x7d' :: ['a'])) []
        = (lookupNamed [] (String.mk ['n'])).getD ("\x7b" ++ String.mk ['n'] ++ "\x7d")
            ++ fmtScan [] ['a'] []
    ∧ fmtScan [] ['\x7b', 'a'] [] = "\x7b" ++ fmtScan [] ['a'] []
    ∧ fmtScan [] ['a'] [] = String.mk ['a'] ++ fmtScan [] [] [] := by
  refine ⟨?_, ?_, ?_, ?_, ?_, ?_⟩
  · exact (C3_theorem [] []).2.2.1 'a' [] (by decide)
  · exact (C3_theorem [] ["1"]).2.2.2.2.1 ['a'] "1" [] rfl
  · exact (C3_theorem [] []).2.2.2.2.2.1 rfl ['a']
  · exact (C3_theorem [] []).2.2.2.2.2.2.1 ['n'] ['a'] (by decide) (by decide) (by decide)
  · exact (C3_theorem [] []).2.2.2.2.2.2.2.1 ['a'] (by decide) (by decide)
  · exact (C3_theorem [] []).2.2.2.2.2.2.2.2.1 'a' [] (by decide) (by decide)

theorem joinSep_cons2 (sep a b : String) (l : List String) :
    joinSep sep (a :: b :: l) = a ++ sep ++ joinSep sep (b :: l) := rfl

theorem ppItems_join (xs : List PyVal) (ind : Nat) (hne : xs ≠ []) :
    ppItems xs ind =
      joinSep ",\n" (xs.map (fun v => spaces (ind + 4) ++ prettyPrint v (ind + 4)))
        ++ "\n" := by
  induction xs with
  | nil => exact absurd rfl hne
  | cons x rest ih =>
      cases rest with
      | nil => simp [ppItems, joinSep]
      | cons y rest2 =>
          simp only [ppItems, List.map_cons]
          rw [joinSep_cons2]
          have := ih (by simp)
          simp only [List.map_cons] at this
          rw [this]
          simp [String.append_assoc]

theorem ppDictItems_join (es : List (PyVal × PyVal)) (ind : Nat) (hne : es ≠ []) :
    ppDictItems es ind =
      joinSep ",\n" (es.map (fun p =>
        spaces (ind + 4) ++ prettyPrint p.1 (ind + 4) ++ ": " ++ prettyPrint p.2 (ind + 4))) := by
  induction es with
  | nil => exact absurd rfl hne
  | cons p rest ih =>
      obtain ⟨k, v⟩ := p
      cases rest with
      | nil => simp [ppDictItems, joinSep]
      | cons q rest2 =>
          simp only [ppDictItems, List.map_cons]
          rw [joinSep_cons2]
          have := ih (by simp)
          simp only [List.map_cons] at this
          rw [this]

theorem ppSetItems_join (xs : List PyVal) (ind : Nat) (hne : xs ≠ []) :
    ppSetItems xs ind =
      joinSep ",\n" (xs.map (fun v => spaces (ind + 4) ++ prettyPrint v (ind + 4))) := by
  induction xs with
  | nil => exact absurd rfl hne
  | cons x rest ih =>
      cases rest with
      | nil => simp [ppSetItems, joinSep]
      | cons y rest2 =>
          simp only [ppSetItems, List.map_cons]
          rw [joinSep_cons2]
          have := ih (by simp)
          simp only [List.map_cons] at this
          rw [this]

/-- C4 counterexample: the claim says every empty container renders inline
— but the set branch of `detail::pretty_print` has no empty check, so the
empty set renders as an opening brace, a newline, a blank line and the
closing brace, not as the inline brace pair. -/
theorem C4_counterexample :
    prettyPrint (PyVal.vset []) 0 = "\x7b\n\n\x7d"
    ∧ "\x7b\n\n\x7d" ≠ "\x7b\x7d" := by
  constructor
  · simp [prettyPrint, ppSetItems, spaces]
  · decide

/-- C4 (amended): the pretty form renders empty lists, tuples and mappings
inline as their delimiter pairs, but an empty set as brace, newline, blank
line, indent, brace; every non-empty container renders its opening
delimiter, a newline, one entry per child indented four columns deeper
than the parent separated by a comma-newline, a trailing newline, and the
closing delimiter at the parent's indent (mapping entries as `key: value`);
booleans render as `True`/`False` and text double-quoted; in particular
`[1]` renders as the bracketed, 4-space-indented single line, and each
nesting level indents by exactly four more columns. -/
theorem C4_theorem (ind : Nat) :
    prettyPrint (PyVal.vlist []) ind = "[]"
    ∧ prettyPrint (PyVal.vtuple []) ind = "()"
    ∧ prettyPrint (PyVal.vdict []) ind = "\x7b\x7d"
    ∧ prettyPrint (PyVal.vset []) ind = "\x7b\n" ++ "\n" ++ spaces ind ++ "\x7d"
    ∧ (∀ xs, xs ≠ [] → prettyPrint (PyVal.vlist xs) ind =
        "[\n" ++ joinSep ",\n" (xs.map (fun v => spaces (ind + 4) ++ prettyPrint v (ind + 4)))
          ++ "\n" ++ spaces ind ++ "]")
    ∧ (∀ xs, xs ≠ [] → prettyPrint (PyVal.vtuple xs) ind =
        "(\n" ++ joinSep ",\n" (xs.map (fun v => spaces (ind + 4) ++ prettyPrint v (ind + 4)))
          ++ "\n" ++ spaces ind ++ ")")
    ∧ (∀ es, es ≠ [] → prettyPrint (PyVal.vdict es) ind =
        "\x7b\n" ++ joinSep ",\n" (es.map (fun p =>
            spaces (ind + 4) ++ prettyPrint p.1 (ind + 4) ++ ": " ++ prettyPrint p.2 (ind + 4)))
          ++ "\n" ++ spaces ind ++ "\x7d")
    ∧ (∀ xs, xs ≠ [] → prettyPrint (PyVal.vset xs) ind =
        "\x7b\n" ++ joinSep ",\n" (xs.map (fun v => spaces (ind + 4) ++ prettyPrint v (ind + 4)))
          ++ "\n" ++ spaces ind ++ "\x7d")
    ∧ (∀ b, prettyPrint (PyVal.vbool b) ind = if b then "True" else "False")
    ∧ (∀ s, prettyPrint (PyVal.vstr s) ind = "\"" ++ s ++ "\"")
    ∧ prettyPrint (PyVal.vlist [PyVal.vint 1]) 0 = "[\n    1\n]"
    ∧ prettyPrint (PyVal.vlist [PyVal.vlist [PyVal.vint 1]]) 0
        = "[\n    [\n        1\n    ]\n]" := by
  refine ⟨?_, ?_, ?_, ?_, ?_, ?_, ?_, ?_, ?_, ?_, ?_, ?_⟩
  · simp [prettyPrint]
  · simp [prettyPrint]
  · simp [prettyPrint]
  · simp [prettyPrint, ppSetItems]
  · intro xs hne
    have h1 : xs.isEmpty = false := by cases xs with
      | nil => exact absurd rfl hne
      | cons a l => rfl
    simp only [prettyPrint, h1, Bool.false_eq_true, if_neg]
    rw [ppItems_join xs ind hne]
    simp [String.append_assoc]
  · intro xs hne
    have h1 : xs.isEmpty = false := by cases xs with
      | nil => exact absurd rfl hne
      | cons a l => rfl
    simp only [prettyPrint, h1, Bool.false_eq_true, if_neg]
    rw [ppItems_join xs ind hne]
    simp [String.append_assoc]
  · intro es hne
    have h1 : es.isEmpty = false := by cases es with
      | nil => exact absurd rfl hne
      | cons a l => rfl
    simp only [prettyPrint, h1, Bool.false_eq_true, if_neg]
    rw [ppDictItems_join es ind hne]
    simp
  · intro xs hne
    simp only [prettyPrint]
    rw [ppSetItems_join xs ind hne]
  · intro b
    cases b <;> simp [prettyPrint]
  · intro s
    simp [prettyPrint]
  · simp only [prettyPrint, ppItems, spaces]
    have ht : toString (1 : Int) = "1" := rfl
    rw [ht]
    decide
  · simp only [prettyPrint, ppItems, spaces]
    have ht : toString (1 : Int) = "1" := rfl
    rw [ht]
    decide

/-- Witness for C4 at concrete inputs: the singleton list `[1]` rendered
at top level, exhibiting the non-empty rendering with a 4-column indent. -/
theorem C4_witness :
    prettyPrint (PyVal.vlist [PyVal.vint 1]) 0
      = "[\n" ++ joinSep ",\n" [spaces 4 ++ prettyPrint (PyVal.vint 1) 4]
          ++ "\n" ++ spaces 0 ++ "]"
    ∧ prettyPrint (PyVal.vbool true) 0 = "True" := by
  constructor
  · have h := ((C4_theorem 0).2.2.2.2.1) [PyVal.vint 1] (by simp)
    simpa using h
  · exact ((C4_theorem 0).2.2.2.2.2.2.2.2.1) true

end PyObjLib
